import Mathlib

/-!
Verification of the ESG-stocks dashboard data-transformation layer.

The embedded code comes from `esgstocks_dashboard/esgstocks_api.py` (the
`ESGStockAPI` class: loading, classification, filtering, return analysis) and
`esgstocks_dashboard/sankey.py` (the category-flow data builder).  Pandas
DataFrames are embedded as Lean lists of rows (or, where column identity
matters, association lists of named columns); numeric scores and prices are
rationals; dates are integers (any totally ordered timestamp representation);
parsed CSV cells are a small sum type.
-/

namespace ESGStocks

/-- A parsed CSV cell, as produced by the CSV reader before any explicit
conversion: a numeric value, a plain string, or a parsed timestamp. -/
inductive Cell where
  | num (q : ℚ)
  | str (s : String)
  | date (d : Int)
deriving DecidableEq

/-- Embedding of `ESGStockAPI.classify_esg` (esgstocks_api.py): classifies an ESG
score into one of three levels with thresholds 30 and 20. -/
def classify_esg (esg_score : ℚ) : String :=
  if esg_score > 30 then "High ESG"
  else if esg_score >= 20 then "Medium ESG"
  else "Low ESG"

/-- Embedding of `ESGStockAPI.classify_biz_risk` (esgstocks_api.py): classifies an overall
business-risk score into one of three levels with boundaries 3 and 6. -/
def classify_biz_risk (biz_risk : Int) : String :=
  if biz_risk ≤ 3 then "Low Business Risk"
  else if biz_risk ≤ 6 then "Medium Business Risk"
  else "High Business Risk"

/-- C3: `classify_esg` is total and deterministic with thresholds 30 and 20:
every score yields exactly one of the three labels, the three labels
characterise the score regions `s > 30`, `20 ≤ s ≤ 30` and `s < 20`, and
`classify_esg 31 = "High ESG"`, `classify_esg 20 = "Medium ESG"`,
`classify_esg 19.9 = "Low ESG"`. -/
theorem classify_esg_total_thresholds :
    (∀ s : ℚ, classify_esg s = "High ESG" ∨ classify_esg s = "Medium ESG" ∨
      classify_esg s = "Low ESG") ∧
    (∀ s : ℚ, (classify_esg s = "High ESG" ↔ 30 < s) ∧
      (classify_esg s = "Medium ESG" ↔ (20 ≤ s ∧ s ≤ 30)) ∧
      (classify_esg s = "Low ESG" ↔ s < 20)) ∧
    classify_esg 31 = "High ESG" ∧ classify_esg 20 = "Medium ESG" ∧
    classify_esg (199 / 10) = "Low ESG" := by
  refine ⟨?_, ?_, by norm_num [classify_esg], by norm_num [classify_esg],
    by norm_num [classify_esg]⟩
  · intro s
    unfold classify_esg
    split_ifs <;> simp
  intro s
  rcases lt_or_le 30 s with h | h
  · rw [classify_esg, if_pos (show s > 30 from h)]
    exact ⟨⟨fun _ => h, fun _ => rfl⟩,
      ⟨fun heq => absurd heq (by decide),
        fun hc => absurd h (not_lt.mpr hc.2)⟩,
      ⟨fun heq => absurd heq (by decide),
        fun hlt => absurd h (not_lt.mpr (by linarith))⟩⟩
  · rcases le_or_lt 20 s with h2 | h2
    · rw [classify_esg, if_neg (show ¬ s > 30 from not_lt.mpr h),
        if_pos (show s ≥ 20 from h2)]
      exact ⟨⟨fun heq => absurd heq (by decide),
          fun hlt => absurd hlt (not_lt.mpr h)⟩,
        ⟨fun _ => ⟨h2, h⟩, fun _ => rfl⟩,
        ⟨fun heq => absurd heq (by decide),
          fun hlt => absurd h2 (not_le.mpr hlt)⟩⟩
    · rw [classify_esg, if_neg (show ¬ s > 30 from not_lt.mpr h),
        if_neg (show ¬ s ≥ 20 from not_le.mpr h2)]
      exact ⟨⟨fun heq => absurd heq (by decide),
          fun hlt => absurd hlt (not_lt.mpr h)⟩,
        ⟨fun heq => absurd heq (by decide),
          fun hc => absurd hc.1 (not_le.mpr h2)⟩,
        ⟨fun _ => h2, fun _ => rfl⟩⟩

/-- One row of the long-format stock table held in `self.stocks` after
`read_data`: date, ticker symbol, price, and company full name. -/
structure StockRow where
  date : Int
  symbol : String
  price : ℚ
  fullName : String
deriving DecidableEq

/-- One row of the ESG table `self.esg`: ticker symbol (join key), company
full name, overall ESG score, the three sub-dimension scores, and the
overall business-risk score. -/
structure EsgRow where
  symbol : String
  fullName : String
  totalEsg : ℚ
  environmentScore : ℚ
  socialScore : ℚ
  governanceScore : ℚ
  overallRisk : Int
deriving DecidableEq

/-- The `ESGStockAPI` object state after `read_data`: the two loaded tables,
treated as immutable afterwards. -/
structure ESGStockAPI where
  esg : List EsgRow
  stocks : List StockRow
deriving DecidableEq

/-- One row of the result of `extract_stock_price_trends`: the projection of
a stock row onto the Date, Full Name and Price columns. -/
structure TrendRow where
  date : Int
  fullName : String
  price : ℚ
deriving DecidableEq

/-- Projection of a stock row onto the `["Date", "Full Name", "Price"]`
column selection performed by `extract_stock_price_trends`. -/
def toTrend (r : StockRow) : TrendRow :=
  TrendRow.mk r.date r.fullName r.price

/-- The sort key of `sort_values(["Full Name", "Date"])` in
`extract_stock_price_trends`: lexicographic by company name, then date. -/
def trendLe (a b : TrendRow) : Prop :=
  a.fullName < b.fullName ∨ (a.fullName = b.fullName ∧ a.date ≤ b.date)

instance : DecidableRel trendLe := fun a b => by
  unfold trendLe
  infer_instance

instance : IsTotal TrendRow trendLe where
  total a b := by
    rcases lt_trichotomy a.fullName b.fullName with h | h | h
    · exact Or.inl (Or.inl h)
    · rcases le_total a.date b.date with hd | hd
      · exact Or.inl (Or.inr ⟨h, hd⟩)
      · exact Or.inr (Or.inr ⟨h.symm, hd⟩)
    · exact Or.inr (Or.inl h)

instance : IsTrans TrendRow trendLe where
  trans a b c hab hbc := by
    rcases hab with h1 | ⟨h1, d1⟩
    · rcases hbc with h2 | ⟨h2, d2⟩
      · exact Or.inl (h1.trans h2)
      · exact Or.inl (h2 ▸ h1)
    · rcases hbc with h2 | ⟨h2, d2⟩
      · exact Or.inl (h1 ▸ h2)
      · exact Or.inr ⟨h1.trans h2, d1.trans d2⟩

/-- Embedding of `ESGStockAPI.extract_stock_price_trends` (esgstocks_api.py): filters the
stock table to the selected companies, applies the optional inclusive
start/end date bounds, projects onto Date / Full Name / Price and sorts by
company name then date. -/
def extract_stock_price_trends (api : ESGStockAPI) (company_names : List String)
    (start_date end_date : Option Int) : List TrendRow :=
  let fltr := api.stocks.filter (fun r => company_names.contains r.fullName)
  let fltr2 := match start_date with
    | none => fltr
    | some d => fltr.filter (fun r => decide (d ≤ r.date))
  let fltr3 := match end_date with
    | none => fltr2
    | some d => fltr2.filter (fun r => decide (r.date ≤ d))
  List.insertionSort trendLe (fltr3.map toTrend)

/-- The per-company aggregation step of `analyze_esg_vs_stock_returns`:
`groupby("Full Name").agg(start_price = first, end_price = last)` followed
by the percentage-return formula.  `first` and `last` are the first and last
rows of the company's group in the current (company-then-date sorted) order;
a company with no price rows has no group, hence no return. -/
def stock_return (prices : List TrendRow) (name : String) : Option ℚ :=
  let g := prices.filter (fun t => t.fullName == name)
  match g.head?, g.getLast? with
  | some f, some l => some ((l.price - f.price) / f.price * 100)
  | _, _ => none

/-- One row of the result of `analyze_esg_vs_stock_returns`: the
`["Full Name", "totalEsg", "Stock Return", "Business Risk Level"]`
column selection. -/
structure ReturnRow where
  fullName : String
  totalEsg : ℚ
  stockReturn : ℚ
  bizRiskLevel : String
deriving DecidableEq

/-- Embedding of `ESGStockAPI.analyze_esg_vs_stock_returns` (esgstocks_api.py): filters
the ESG table by the selected companies and, when the filter list is
non-empty (Python `if biz_risks:` treats `None` and `[]` alike), by
business-risk level; computes each remaining company's percentage stock
return over the date range; and inner-joins on the company name, which keeps
exactly the ESG rows whose company has at least one price row in range. -/
def analyze_esg_vs_stock_returns (api : ESGStockAPI) (company_names : List String)
    (start_date end_date : Option Int) (biz_risks : List String) : List ReturnRow :=
  let fltr := api.esg.filter (fun r => company_names.contains r.fullName)
  let fltr2 := if biz_risks.isEmpty then fltr
    else fltr.filter (fun r => biz_risks.contains (classify_biz_risk r.overallRisk))
  let prices := extract_stock_price_trends api (fltr2.map (fun r => r.fullName))
    start_date end_date
  fltr2.filterMap (fun r => (stock_return prices r.fullName).map
    (fun ret => ReturnRow.mk r.fullName r.totalEsg ret (classify_biz_risk r.overallRisk)))

/-- The membership condition described by C8: company name in the selected
set and date within the inclusive `[start_date, end_date]` range, where a
missing bound imposes no restriction on that side. -/
def inSelection (company_names : List String) (start_date end_date : Option Int)
    (r : StockRow) : Bool :=
  company_names.contains r.fullName &&
    start_date.all (fun d => decide (d ≤ r.date)) &&
    end_date.all (fun d => decide (r.date ≤ d))

/-- The rows kept by `extract_stock_price_trends` are, up to the final sort,
exactly the stock rows passing the company and date filters. -/
theorem extract_perm_filter (api : ESGStockAPI) (company_names : List String)
    (start_date end_date : Option Int) :
    (extract_stock_price_trends api company_names start_date end_date).Perm
      ((api.stocks.filter (inSelection company_names start_date end_date)).map toTrend) := by
  refine (List.perm_insertionSort trendLe _).trans (List.Perm.of_eq ?_)
  congr 1
  cases start_date <;> cases end_date <;>
    simp only [List.filter_filter] <;>
    refine List.filter_congr (fun x hx => ?_) <;>
    rw [Bool.eq_iff_iff] <;>
    simp only [inSelection, Option.all_none, Option.all_some, Bool.and_true,
      Bool.and_eq_true, decide_eq_true_eq] <;>
    tauto

/-- The output of `extract_stock_price_trends` is sorted by company name,
then date. -/
theorem extract_pairwise (api : ESGStockAPI) (company_names : List String)
    (start_date end_date : Option Int) :
    (extract_stock_price_trends api company_names start_date end_date).Pairwise trendLe :=
  List.sorted_insertionSort trendLe _

/-- C8: `extract_stock_price_trends` returns exactly (up to ordering) the
price rows whose company name is in the given set and whose date lies in the
inclusive `[start_date, end_date]` range, a missing bound imposing no
restriction, and the returned rows are sorted by company name then date. -/
theorem extract_stock_price_trends_spec (api : ESGStockAPI)
    (company_names : List String) (start_date end_date : Option Int) :
    (extract_stock_price_trends api company_names start_date end_date).Perm
      ((api.stocks.filter (inSelection company_names start_date end_date)).map toTrend) ∧
    (extract_stock_price_trends api company_names start_date end_date).Pairwise trendLe :=
  ⟨extract_perm_filter api company_names start_date end_date,
    extract_pairwise api company_names start_date end_date⟩

/-- The price series C1 speaks about: one company's stock rows inside the
inclusive date range (a missing bound imposes no restriction), projected
onto Date / Full Name / Price. -/
def companyRowsInRange (api : ESGStockAPI) (name : String)
    (start_date end_date : Option Int) : List TrendRow :=
  (api.stocks.filter (fun r => r.fullName == name &&
    start_date.all (fun d => decide (d ≤ r.date)) &&
    end_date.all (fun d => decide (r.date ≤ d)))).map toTrend

/-- When the per-company aggregation of `analyze_esg_vs_stock_returns`
produces a return for company `c`, that return is the percentage-change
formula evaluated at the first and last entries of a chronologically sorted
arrangement of the rows of `c` inside the date range. -/
theorem stock_return_some_spec (api : ESGStockAPI) (names : List String)
    (start_date end_date : Option Int) (c : String) (ret : ℚ)
    (hc : c ∈ names)
    (hret : stock_return (extract_stock_price_trends api names start_date end_date) c
      = some ret) :
    ∃ (s : List TrendRow) (f l : TrendRow),
      s.Perm (companyRowsInRange api c start_date end_date) ∧
      s.Pairwise (fun a b => a.date ≤ b.date) ∧
      s.head? = some f ∧ s.getLast? = some l ∧
      ret = (l.price - f.price) / f.price * 100 := by
  unfold stock_return at hret
  set g := (extract_stock_price_trends api names start_date end_date).filter
    (fun t => t.fullName == c) with hg
  dsimp only at hret
  split at hret
  case _ f l hh hl =>
    refine ⟨g, f, l, ?_, ?_, hh, hl, (Option.some.inj hret).symm⟩
    · refine ((extract_perm_filter api names start_date end_date).filter _).trans
        (List.Perm.of_eq ?_)
      rw [List.filter_map, List.filter_filter]
      unfold companyRowsInRange
      congr 1
      refine List.filter_congr (fun x hx => ?_)
      rw [Bool.eq_iff_iff]
      simp only [inSelection, Function.comp, toTrend, Bool.and_eq_true, beq_iff_eq,
        decide_eq_true_eq, List.elem_eq_mem, and_assoc]
      constructor
      · rintro ⟨heq, _, hsd, hed⟩
        exact ⟨heq, hsd, hed⟩
      · rintro ⟨heq, hsd, hed⟩
        exact ⟨heq, heq ▸ hc, hsd, hed⟩
    · have hpg : g.Pairwise trendLe :=
        (extract_pairwise api names start_date end_date).filter _
      refine hpg.imp_of_mem (fun ha hb hab => ?_)
      rename_i a b
      have hac : a.fullName = c := by
        have := (List.mem_filter.mp (hg ▸ ha)).2
        exact beq_iff_eq.mp this
      have hbc : b.fullName = c := by
        have := (List.mem_filter.mp (hg ▸ hb)).2
        exact beq_iff_eq.mp this
      rcases hab with h | ⟨_, hd⟩
      · rw [hac, hbc] at h
        exact absurd h (lt_irrefl c)
      · exact hd
  case _ hother =>
    exact absurd hret (by simp)

/-- C1: every row reported by `analyze_esg_vs_stock_returns` carries as its
Stock Return the value (last price − first price) / first price × 100, where
first and last are the first and last entries of a chronologically ordered
arrangement of that company's price rows inside the inclusive
`[start_date, end_date]` range. -/
theorem analyze_esg_vs_stock_returns_formula (api : ESGStockAPI)
    (company_names : List String) (start_date end_date : Option Int)
    (biz_risks : List String) (row : ReturnRow)
    (hrow : row ∈ analyze_esg_vs_stock_returns api company_names start_date
      end_date biz_risks) :
    ∃ (s : List TrendRow) (f l : TrendRow),
      s.Perm (companyRowsInRange api row.fullName start_date end_date) ∧
      s.Pairwise (fun a b => a.date ≤ b.date) ∧
      s.head? = some f ∧ s.getLast? = some l ∧
      row.stockReturn = (l.price - f.price) / f.price * 100 := by
  simp only [analyze_esg_vs_stock_returns, List.mem_filterMap,
    Option.map_eq_some'] at hrow
  obtain ⟨r, hr, ret, hret, hmk⟩ := hrow
  subst hmk
  exact stock_return_some_spec api _ start_date end_date r.fullName ret
    (List.mem_map_of_mem _ hr) hret

/-- A one-company dataset realising the worked example of the spec: prices
100, 110 and 121 on three consecutive days. -/
def demoApi : ESGStockAPI where
  esg := [EsgRow.mk "ACM" "Acme" 25 10 8 7 2]
  stocks := [StockRow.mk 1 "ACM" 100 "Acme", StockRow.mk 2 "ACM" 110 "Acme",
    StockRow.mk 3 "ACM" 121 "Acme"]

/-- Witness for C1 at the spec's worked example: a price series 100, 110,
121 yields a stock return of (121 − 100) / 100 × 100 = 21 percent. -/
theorem analyze_esg_vs_stock_returns_formula_witness :
    (ReturnRow.mk "Acme" 25 ((121 - 100 : ℚ) / 100 * 100) "Low Business Risk" ∈
      analyze_esg_vs_stock_returns demoApi ["Acme"] (some 0) (some 10) []) ∧
    ((121 - 100 : ℚ) / 100 * 100 = 21) ∧
    (∃ (s : List TrendRow) (f l : TrendRow),
      s.Perm (companyRowsInRange demoApi "Acme" (some 0) (some 10)) ∧
      s.Pairwise (fun a b => a.date ≤ b.date) ∧
      s.head? = some f ∧ s.getLast? = some l ∧
      (ReturnRow.mk "Acme" 25 ((121 - 100 : ℚ) / 100 * 100)
        "Low Business Risk").stockReturn = (l.price - f.price) / f.price * 100) :=
  ⟨by
    simp [analyze_esg_vs_stock_returns, extract_stock_price_trends, stock_return,
      classify_biz_risk, inSelection, trendLe, toTrend, demoApi,
      List.insertionSort, List.orderedInsert],
  by norm_num,
  analyze_esg_vs_stock_returns_formula demoApi ["Acme"] (some 0) (some 10) []
    (ReturnRow.mk "Acme" 25 ((121 - 100 : ℚ) / 100 * 100) "Low Business Risk")
    (by
      simp [analyze_esg_vs_stock_returns, extract_stock_price_trends, stock_return,
        classify_biz_risk, inSelection, trendLe, toTrend, demoApi,
        List.insertionSort, List.orderedInsert])⟩

/-- C7: a company whose price series inside the requested inclusive date
range is empty is absent from the output of `analyze_esg_vs_stock_returns`. -/
theorem analyze_drops_company_without_prices (api : ESGStockAPI)
    (company_names : List String) (start_date end_date : Option Int)
    (biz_risks : List String) (c : String)
    (hnone : companyRowsInRange api c start_date end_date = []) :
    ∀ row ∈ analyze_esg_vs_stock_returns api company_names start_date end_date
      biz_risks, row.fullName ≠ c := by
  intro row hrow heq
  simp only [analyze_esg_vs_stock_returns, List.mem_filterMap,
    Option.map_eq_some'] at hrow
  obtain ⟨r, hr, ret, hret, hmk⟩ := hrow
  have hrc : r.fullName = c := by
    rw [← hmk] at heq
    exact heq
  obtain ⟨s, f, l, hperm, _, hh, _, _⟩ := stock_return_some_spec api _ start_date
    end_date r.fullName ret (List.mem_map_of_mem _ hr) hret
  rw [hrc, hnone] at hperm
  rw [hperm.eq_nil] at hh
  exact absurd hh (by simp)

/-- A dataset whose only company has an ESG row but no price rows at all:
the selected company is kept by the ESG filters yet dropped by the inner
join, and the result is a valid empty table. -/
def ghostApi : ESGStockAPI where
  esg := [EsgRow.mk "GST" "Ghost" 25 10 8 7 2]
  stocks := []

/-- Witness for C7: with no price rows in range, the analysis output is the
empty table and in particular contains no row for the company. -/
theorem analyze_drops_company_without_prices_witness :
    (analyze_esg_vs_stock_returns ghostApi ["Ghost"] (some 0) (some 5) [] = []) ∧
    (∀ row ∈ analyze_esg_vs_stock_returns ghostApi ["Ghost"] (some 0) (some 5) [],
      row.fullName ≠ "Ghost") :=
  ⟨by decide,
    analyze_drops_company_without_prices ghostApi ["Ghost"] (some 0) (some 5) []
      "Ghost" (by decide)⟩

/-- C4 counterexample: the code labels a risk score of 3 as
"Low Business Risk", not "Low" as the claim states. -/
theorem classify_biz_risk_label_counterexample :
    ¬ (classify_biz_risk 3 = "Low") := by
  decide

/-- C4 (amended): `classify_biz_risk` maps every integer risk score to one of
three ordinal levels with boundaries Low for scores ≤ 3, Medium for scores
≤ 6, High for scores > 6, where the labels are "Low Business Risk",
"Medium Business Risk" and "High Business Risk"; in particular
`classify_biz_risk 3 = "Low Business Risk"`,
`classify_biz_risk 4 = "Medium Business Risk"` and
`classify_biz_risk 7 = "High Business Risk"`. -/
theorem classify_biz_risk_thresholds :
    (∀ r : Int, classify_biz_risk r = "Low Business Risk" ∨
      classify_biz_risk r = "Medium Business Risk" ∨
      classify_biz_risk r = "High Business Risk") ∧
    (∀ r : Int, (classify_biz_risk r = "Low Business Risk" ↔ r ≤ 3) ∧
      (classify_biz_risk r = "Medium Business Risk" ↔ (3 < r ∧ r ≤ 6)) ∧
      (classify_biz_risk r = "High Business Risk" ↔ 6 < r)) ∧
    classify_biz_risk 3 = "Low Business Risk" ∧
    classify_biz_risk 4 = "Medium Business Risk" ∧
    classify_biz_risk 7 = "High Business Risk" := by
  refine ⟨?_, ?_, by decide, by decide, by decide⟩
  · intro r
    unfold classify_biz_risk
    split_ifs <;> simp
  intro r
  rcases le_or_lt r 3 with h | h
  · rw [classify_biz_risk, if_pos h]
    exact ⟨⟨fun _ => h, fun _ => rfl⟩,
      ⟨fun heq => absurd heq (by decide), fun hc => absurd h (not_le.mpr hc.1)⟩,
      ⟨fun heq => absurd heq (by decide),
        fun hlt => absurd h (not_le.mpr (by omega))⟩⟩
  · rcases le_or_lt r 6 with h2 | h2
    · rw [classify_biz_risk, if_neg (not_le.mpr h), if_pos h2]
      exact ⟨⟨fun heq => absurd heq (by decide), fun hle => absurd h (not_lt.mpr hle)⟩,
        ⟨fun _ => ⟨h, h2⟩, fun _ => rfl⟩,
        ⟨fun heq => absurd heq (by decide), fun hlt => absurd h2 (not_le.mpr hlt)⟩⟩
    · rw [classify_biz_risk, if_neg (not_le.mpr h), if_neg (not_le.mpr h2)]
      exact ⟨⟨fun heq => absurd heq (by decide),
          fun hle => absurd h (not_lt.mpr hle)⟩,
        ⟨fun heq => absurd heq (by decide),
          fun hc => absurd hc.2 (not_le.mpr h2)⟩,
        ⟨fun _ => h2, fun _ => rfl⟩⟩

/-- Embedding of `stack_columns` (sankey.py): pairs each column with its successor and,
for each adjacent pair, emits one (src, targ, value) triple per row of the
DataFrame, stacking all pairs vertically.  A DataFrame row is embedded as a
function from column names to cells. -/
def stack_columns (df : List (String → Cell)) (cols : List String) :
    List (Cell × Cell × Cell) :=
  (cols.zip cols.tail).flatMap
    (fun p => df.map (fun r => (r p.1, r p.2, r "value")))

/-- A flat map whose fibers all have the size of the row list produces one
element per (pair, row) combination. -/
theorem flatMap_map_length {α β γ : Type} (ps : List α) (df : List β) (f : α → β → γ) :
    (ps.flatMap (fun p => df.map (f p))).length = ps.length * df.length := by
  induction ps with
  | nil => simp
  | cons p ps ih =>
    simp only [List.flatMap_cons, List.length_append, List.length_map, ih,
      List.length_cons]
    ring

/-- The adjacent pairs of a list are exactly the pairs of entries at
positions `i` and `i + 1`. -/
theorem mem_zip_tail {l : List String} {p : String × String} :
    p ∈ l.zip l.tail ↔ ∃ i, ∃ hi : i + 1 < l.length,
      p = (l.get ⟨i, by omega⟩, l.get ⟨i + 1, hi⟩) := by
  constructor
  · intro hp
    obtain ⟨j, hj, hjp⟩ := List.mem_iff_getElem.mp hp
    have hlen : j + 1 < l.length := by
      simp only [List.length_zip, List.length_tail, lt_min_iff] at hj
      omega
    refine ⟨j, hlen, ?_⟩
    rw [← hjp, List.getElem_zip]
    simp [List.getElem_tail]
  · rintro ⟨i, hi, rfl⟩
    refine List.mem_iff_getElem.mpr ⟨i, ?_, ?_⟩
    · simp only [List.length_zip, List.length_tail, lt_min_iff]
      omega
    · rw [List.getElem_zip]
      simp [List.getElem_tail]

/-- C5: on a DataFrame with `n` rows and `k ≥ 2` columns, `stack_columns`
produces exactly `n × (k − 1)` triples, and the triples are exactly the
tuples (row at column i, row at column i+1, row at the value column) for
every row and every adjacent column pair. -/
theorem stack_columns_spec (df : List (String → Cell)) (cols : List String)
    (hk : 2 ≤ cols.length) :
    (stack_columns df cols).length = df.length * (cols.length - 1) ∧
    (∀ t : Cell × Cell × Cell, t ∈ stack_columns df cols ↔
      ∃ i, ∃ hi : i + 1 < cols.length, ∃ r ∈ df,
        t = (r (cols.get ⟨i, by omega⟩), r (cols.get ⟨i + 1, hi⟩), r "value")) := by
  constructor
  · rw [stack_columns, flatMap_map_length]
    simp only [List.length_zip, List.length_tail]
    have : min cols.length (cols.length - 1) = cols.length - 1 := by omega
    rw [this, Nat.mul_comm]
  · intro t
    rw [stack_columns, List.mem_flatMap]
    constructor
    · rintro ⟨p, hp, ht⟩
      obtain ⟨i, hi, rfl⟩ := mem_zip_tail.mp hp
      obtain ⟨r, hr, rfl⟩ := List.mem_map.mp ht
      exact ⟨i, hi, r, hr, rfl⟩
    · rintro ⟨i, hi, r, hr, rfl⟩
      refine ⟨(cols.get ⟨i, by omega⟩, cols.get ⟨i + 1, hi⟩),
        mem_zip_tail.mpr ⟨i, hi, rfl⟩, ?_⟩
      exact List.mem_map.mpr ⟨r, hr, rfl⟩

/-- Witness for C5 on a two-row, three-column frame: 2 × (3 − 1) = 4
triples, containing the adjacent-pair triple of each row. -/
theorem stack_columns_spec_witness :
    (2 ≤ (["a", "b", "value"] : List String).length) ∧
    (stack_columns
        [fun c => Cell.str ("r1" ++ c), fun c => Cell.str ("r2" ++ c)]
        ["a", "b", "value"]).length = 2 * (3 - 1) :=
  ⟨by decide,
    (stack_columns_spec
      [fun c => Cell.str ("r1" ++ c), fun c => Cell.str ("r2" ++ c)]
      ["a", "b", "value"] (by decide)).1⟩

/-- Embedding of `code_mapping` (sankey.py): collects the distinct labels appearing in
the source and target columns (the Python code converts the union of the
two column sets into a list; the embedding dedups their concatenation —
an arbitrary deterministic order of the same distinct labels), zips the
labels with the codes `0, ..., N-1` into a mapping, and replaces both
columns by the codes, returning the recoded relation and the label list. -/
def code_mapping (df : List (Cell × Cell × Cell)) :
    List (Nat × Nat × Cell) × List Cell :=
  let labels := ((df.map Prod.fst) ++ (df.map (fun t => t.2.1))).dedup
  let lc_map := fun l => labels.indexOf l
  (df.map (fun t => (lc_map t.1, lc_map t.2.1, t.2.2)), labels)

/-- C2: within one diagram build, `code_mapping` sends the distinct labels
of the source/target columns bijectively to the codes `0, ..., N-1`: the
label list has no duplicates, equal labels get equal codes and distinct
labels distinct codes, the codes of the labels are exactly `0, ..., N-1`,
the assignment round-trips (`labels[code(l)] = l`), every source/target
label of the input is assigned a code, and each input triple is recoded by
that one assignment. -/
theorem code_mapping_spec (df : List (Cell × Cell × Cell)) :
    (code_mapping df).2.Nodup ∧
    (∀ l ∈ (code_mapping df).2, ∃ h : (code_mapping df).2.indexOf l < (code_mapping df).2.length,
      (code_mapping df).2.get ⟨(code_mapping df).2.indexOf l, h⟩ = l) ∧
    (∀ l1 ∈ (code_mapping df).2, ∀ l2 ∈ (code_mapping df).2,
      (code_mapping df).2.indexOf l1 = (code_mapping df).2.indexOf l2 → l1 = l2) ∧
    ((code_mapping df).2.map (fun l => (code_mapping df).2.indexOf l) =
      List.range (code_mapping df).2.length) ∧
    (∀ t ∈ df, t.1 ∈ (code_mapping df).2 ∧ t.2.1 ∈ (code_mapping df).2) ∧
    (∀ i : Nat, ((code_mapping df).1)[i]? = (df[i]?).map
      (fun t => ((code_mapping df).2.indexOf t.1, (code_mapping df).2.indexOf t.2.1, t.2.2))) := by
  simp only [code_mapping]
  refine ⟨List.nodup_dedup _, ?_, ?_, ?_, ?_, ?_⟩
  · intro l hl
    exact ⟨List.indexOf_lt_length.mpr hl, List.indexOf_get _⟩
  · intro l1 h1 l2 h2 h
    exact (List.indexOf_inj h1 h2).mp h
  · ext1 i
    rcases lt_or_le i (((df.map Prod.fst) ++ (df.map (fun t => t.2.1))).dedup.length) with h | h
    · rw [List.getElem?_map, List.getElem?_range h, List.getElem?_eq_getElem h,
        Option.map_some']
      congr 1
      exact List.indexOf_getElem (List.nodup_dedup _) i h
    · rw [List.getElem?_map, List.getElem?_eq_none h,
        List.getElem?_eq_none (by simpa using h)]
      rfl
  · intro t ht
    constructor
    · exact List.mem_dedup.mpr (List.mem_append_left _ (List.mem_map_of_mem _ ht))
    · exact List.mem_dedup.mpr (List.mem_append_right _ (List.mem_map_of_mem _ ht))
  · intro i
    rw [List.getElem?_map]

/-- A pandas DataFrame viewed column-wise: an association list of column
names to cell columns.  Cells are the entries of one column, top to
bottom. -/
def setCol (df : List (String × List Cell)) (c : String) (v : List Cell) :
    List (String × List Cell) :=
  if df.any (fun p => p.1 == c) then
    df.map (fun p => if p.1 == c then (c, v) else p)
  else df ++ [(c, v)]

/-- Column read of `df[c]`: the first column named `c` (empty when absent). -/
def getCol (df : List (String × List Cell)) (c : String) : List Cell :=
  match df.find? (fun p => p.1 == c) with
  | some p => p.2
  | none => []

/-- The number of rows of a column-wise DataFrame (the index length that a
scalar assignment broadcasts over). -/
def nRows (df : List (String × List Cell)) : Nat :=
  match df with
  | [] => 0
  | p :: _ => p.2.length

/-- The caller-visible effect of `make_sankey` (sankey.py) on the DataFrame
passed in: before reshaping it executes `df["value"] = df[vals]` when a
values column is given, else `df["value"] = 1` broadcast over the rows.
The later `df = stack_columns(df, cols)` only rebinds the local name, so
this column write is the net effect on the caller's frame. -/
def make_sankey_value_write (df : List (String × List Cell))
    (vals : Option String) : List (String × List Cell) :=
  match vals with
  | some v => setCol df "value" (getCol df v)
  | none => setCol df "value" (List.replicate (nRows df) (Cell.num 1))

/-- Writing a mapped column and reading it back returns the written
column. -/
theorem find?_set_of_any (c : String) (v : List Cell) :
    ∀ df : List (String × List Cell), df.any (fun p => p.1 == c) = true →
      (df.map (fun p => if p.1 == c then (c, v) else p)).find?
        (fun p => p.1 == c) = some (c, v)
  | [], h => by simp at h
  | p :: ps, h => by
    by_cases hp : p.1 == c
    · rw [List.map_cons, if_pos hp]
      simp [List.find?]
    · rw [List.map_cons, if_neg hp]
      rw [List.find?_cons_of_neg _ (by simpa using hp)]
      apply find?_set_of_any c v ps
      simpa [hp] using h

/-- Get-set law for the column write: after `setCol df c v`, reading column
`c` yields `v`, whether the column was overwritten or appended. -/
theorem getCol_setCol (df : List (String × List Cell)) (c : String)
    (v : List Cell) : getCol (setCol df c v) c = v := by
  unfold setCol getCol
  by_cases h : df.any (fun p => p.1 == c)
  · rw [if_pos h, find?_set_of_any c v df h]
  · rw [if_neg h, List.find?_append, List.find?_eq_none.mpr, Option.none_or]
    · simp [List.find?]
    · intro x hx
      intro hxc
      exact h (List.any_eq_true.mpr ⟨x, hx, hxc⟩)

/-- C10: `make_sankey` writes a "value" column onto the caller's DataFrame:
after any call, the caller's frame carries a "value" column equal to the
`vals` column when one is given and to the constant 1 broadcast over the
rows otherwise; the input frame is not, in general, left unchanged. -/
theorem make_sankey_mutates_caller :
    (∀ (df : List (String × List Cell)) (v : String),
      getCol (make_sankey_value_write df (some v)) "value" = getCol df v) ∧
    (∀ df : List (String × List Cell),
      getCol (make_sankey_value_write df none) "value" =
        List.replicate (nRows df) (Cell.num 1)) ∧
    (make_sankey_value_write [("A", [Cell.str "x"])] none ≠
      [("A", [Cell.str "x"])]) := by
  refine ⟨fun df v => getCol_setCol df "value" (getCol df v),
    fun df => getCol_setCol df "value" (List.replicate (nRows df) (Cell.num 1)),
    ?_⟩
  decide

/-- A raw CSV table as produced by `read_csv`: a header of column names and
one list of parsed cells per row.  Cells are read positionally under the
header; a missing trailing field reads as an empty string. -/
structure RawTable where
  header : List String
  rows : List (List Cell)
deriving DecidableEq

/-- Column access `table[col]`: a `KeyError` when the column is absent from
the header, otherwise the column's cells top to bottom. -/
def getColumn (t : RawTable) (c : String) : Except String (List Cell) :=
  if c ∈ t.header then
    .ok (t.rows.map (fun r => r.getD (t.header.indexOf c) (Cell.str "")))
  else .error c

/-- Embedding of `pd.to_numeric` over a column: the numbers when every cell is numeric,
an error as soon as a cell is not. -/
def to_numeric : List Cell → Except String (List ℚ)
  | [] => .ok []
  | Cell.num q :: cs =>
    match to_numeric cs with
    | .ok qs => .ok (q :: qs)
    | .error e => .error e
  | _ :: _ => .error "unable to parse value"

/-- Embedding of `pd.to_datetime(...).dt.tz_localize(None)` over a column: the timestamps
when every cell parses as a date, an error as soon as a cell does not. -/
def to_datetime : List Cell → Except String (List Int)
  | [] => .ok []
  | Cell.date d :: cs =>
    match to_datetime cs with
    | .ok ds => .ok (d :: ds)
    | .error e => .error e
  | _ :: _ => .error "unable to parse date"

/-- One row of the reshaped long-format stock table: `melt` produces one
(Date, Symbol, value) row per date row and per non-Date column; the Full
Name column is then added from the symbol→name dictionary. -/
structure LongRow where
  date : Int
  symbol : String
  price : Cell
  fullName : Cell
deriving DecidableEq

/-- The state written by a successful `read_data`: the Symbol, Full Name
and (numerically converted) totalEsg columns of the ESG table, and the
reshaped long-format stock table.  The remaining ESG columns are carried
through `read_data` unchanged and play no role in the loading logic. -/
structure LoadedData where
  esgSymbols : List Cell
  esgNames : List Cell
  totalEsg : List ℚ
  stocks : List LongRow
deriving DecidableEq

/-- Embedding of `ESGStockAPI.read_data` (esgstocks_api.py): converts the ESG table's
totalEsg column to numbers, builds the symbol→name dictionary
(`dict(zip(symbols, names))`, later duplicates overriding earlier ones),
parses the stock table's Date column to timezone-naive timestamps, melts
the remaining columns to long (Date, Symbol, Price) form, keeps only the
rows whose symbol is a key of the dictionary, and maps the symbol to the
company's full name.  Each failing access or conversion surfaces as the
corresponding error. -/
def read_data (esgT stocksT : RawTable) : Except String LoadedData :=
  match getColumn esgT "totalEsg" with
  | .error e => .error e
  | .ok esgRaw =>
  match to_numeric esgRaw with
  | .error e => .error e
  | .ok totalEsg =>
  match getColumn esgT "Symbol" with
  | .error e => .error e
  | .ok symbols =>
  match getColumn esgT "Full Name" with
  | .error e => .error e
  | .ok names =>
  match getColumn stocksT "Date" with
  | .error e => .error e
  | .ok dateRaw =>
  match to_datetime dateRaw with
  | .error e => .error e
  | .ok dates =>
    let valueCols := stocksT.header.filter (fun c => c ≠ "Date")
    let long := valueCols.flatMap (fun s =>
      (dates.zip (stocksT.rows.map (fun r =>
        r.getD (stocksT.header.indexOf s) (Cell.str "")))).map
        (fun p => LongRow.mk p.1 s p.2 (Cell.str "")))
    let kept := long.filter (fun r => symbols.contains (Cell.str r.symbol))
    let named := kept.map (fun r => { r with fullName :=
      ((symbols.zip names).reverse.lookup (Cell.str r.symbol)).getD (Cell.str "") })
    .ok (LoadedData.mk symbols names totalEsg named)

/-- C6: after a successful `read_data`, every symbol occurring in the
reshaped long-format stock table is a symbol of the ESG table (both as
recorded in the loaded state and as found in the raw input's Symbol
column); a price-file symbol absent from the ESG file never appears.  All
later views are pure functions of the loaded state, so the containment
carries over to everything derived from it. -/
theorem read_data_symbols_subset (esgT stocksT : RawTable) (d : LoadedData)
    (h : read_data esgT stocksT = .ok d) :
    ∀ r ∈ d.stocks, Cell.str r.symbol ∈ d.esgSymbols ∧
      Cell.str r.symbol ∈ esgT.rows.map
        (fun row => row.getD (esgT.header.indexOf "Symbol") (Cell.str "")) := by
  unfold read_data at h
  cases h1 : getColumn esgT "totalEsg" with
  | error e => rw [h1] at h; exact absurd h (by simp)
  | ok esgRaw =>
  rw [h1] at h
  dsimp only at h
  cases h2 : to_numeric esgRaw with
  | error e => rw [h2] at h; exact absurd h (by simp)
  | ok totalEsg =>
  rw [h2] at h
  dsimp only at h
  cases h3 : getColumn esgT "Symbol" with
  | error e => rw [h3] at h; exact absurd h (by simp)
  | ok symbols =>
  rw [h3] at h
  dsimp only at h
  cases h4 : getColumn esgT "Full Name" with
  | error e => rw [h4] at h; exact absurd h (by simp)
  | ok names =>
  rw [h4] at h
  dsimp only at h
  cases h5 : getColumn stocksT "Date" with
  | error e => rw [h5] at h; exact absurd h (by simp)
  | ok dateRaw =>
  rw [h5] at h
  dsimp only at h
  cases h6 : to_datetime dateRaw with
  | error e => rw [h6] at h; exact absurd h (by simp)
  | ok dates =>
  rw [h6] at h
  dsimp only at h
  rw [Except.ok.injEq] at h
  subst h
  intro r hr
  simp only [List.mem_map] at hr
  obtain ⟨r0, hr0, hupd⟩ := hr
  have hsymb : r.symbol = r0.symbol := by rw [← hupd]
  have hmem0 := (List.mem_filter.mp hr0).2
  have hmem : Cell.str r0.symbol ∈ symbols := by
    simpa using hmem0
  constructor
  · rw [hsymb]
    exact hmem
  · unfold getColumn at h3
    split at h3
    · rw [Except.ok.injEq] at h3
      rw [hsymb, h3]
      exact hmem
    · exact absurd h3 (by simp)

/-- The loader's notion of a well-formed pair of input files: the columns
`read_data` accesses are present, every totalEsg cell is numeric, and every
Date cell parses as a date. -/
def wellFormedInput (esgT stocksT : RawTable) : Prop :=
  "totalEsg" ∈ esgT.header ∧ "Symbol" ∈ esgT.header ∧ "Full Name" ∈ esgT.header ∧
  "Date" ∈ stocksT.header ∧
  (∀ c ∈ esgT.rows.map (fun r => r.getD (esgT.header.indexOf "totalEsg") (Cell.str "")),
    ∃ q, c = Cell.num q) ∧
  (∀ c ∈ stocksT.rows.map (fun r => r.getD (stocksT.header.indexOf "Date") (Cell.str "")),
    ∃ d, c = Cell.date d)

/-- Conversion `to_numeric` succeeds exactly on all-numeric columns. -/
theorem to_numeric_ok_iff (cs : List Cell) :
    (∃ qs, to_numeric cs = .ok qs) ↔ ∀ c ∈ cs, ∃ q, c = Cell.num q := by
  induction cs with
  | nil => simp [to_numeric]
  | cons c cs ih =>
    cases c with
    | num q =>
      cases htc : to_numeric cs with
      | ok qs =>
        simp only [to_numeric, htc]
        constructor
        · intro _ c hc
          rcases List.mem_cons.mp hc with rfl | hc
          · exact ⟨q, rfl⟩
          · exact (ih.mp ⟨qs, htc⟩) c hc
        · intro _
          exact ⟨q :: qs, rfl⟩
      | error e =>
        simp only [to_numeric, htc]
        constructor
        · rintro ⟨qs, hqs⟩
          exact absurd hqs (by simp)
        · intro hall
          obtain ⟨qs, hqs⟩ := ih.mpr (fun c hc => hall c (List.mem_cons_of_mem _ hc))
          rw [hqs] at htc
          exact absurd htc (by simp)
    | str s =>
      simp only [to_numeric]
      constructor
      · rintro ⟨qs, hqs⟩
        exact absurd hqs (by simp)
      · intro hall
        obtain ⟨q, hq⟩ := hall (Cell.str s) (List.mem_cons_self _ _)
        exact absurd hq (by simp)
    | date dd =>
      simp only [to_numeric]
      constructor
      · rintro ⟨qs, hqs⟩
        exact absurd hqs (by simp)
      · intro hall
        obtain ⟨q, hq⟩ := hall (Cell.date dd) (List.mem_cons_self _ _)
        exact absurd hq (by simp)

/-- Conversion `to_datetime` succeeds exactly on all-date columns. -/
theorem to_datetime_ok_iff (cs : List Cell) :
    (∃ ds, to_datetime cs = .ok ds) ↔ ∀ c ∈ cs, ∃ d, c = Cell.date d := by
  induction cs with
  | nil => simp [to_datetime]
  | cons c cs ih =>
    cases c with
    | date dd =>
      cases htc : to_datetime cs with
      | ok ds =>
        simp only [to_datetime, htc]
        constructor
        · intro _ c hc
          rcases List.mem_cons.mp hc with rfl | hc
          · exact ⟨dd, rfl⟩
          · exact (ih.mp ⟨ds, htc⟩) c hc
        · intro _
          exact ⟨dd :: ds, rfl⟩
      | error e =>
        simp only [to_datetime, htc]
        constructor
        · rintro ⟨ds, hds⟩
          exact absurd hds (by simp)
        · intro hall
          obtain ⟨ds, hds⟩ := ih.mpr (fun c hc => hall c (List.mem_cons_of_mem _ hc))
          rw [hds] at htc
          exact absurd htc (by simp)
    | str s =>
      simp only [to_datetime]
      constructor
      · rintro ⟨ds, hds⟩
        exact absurd hds (by simp)
      · intro hall
        obtain ⟨dd, hd⟩ := hall (Cell.str s) (List.mem_cons_self _ _)
        exact absurd hd (by simp)
    | num q =>
      simp only [to_datetime]
      constructor
      · rintro ⟨ds, hds⟩
        exact absurd hds (by simp)
      · intro hall
        obtain ⟨dd, hd⟩ := hall (Cell.num q) (List.mem_cons_self _ _)
        exact absurd hd (by simp)

/-- Reading `getColumn` on a present column returns the column's cells. -/
theorem getColumn_mem (t : RawTable) (c : String) (h : c ∈ t.header) :
    getColumn t c =
      .ok (t.rows.map (fun r => r.getD (t.header.indexOf c) (Cell.str ""))) := by
  unfold getColumn
  rw [if_pos h]

/-- Reading `getColumn` on an absent column raises a `KeyError`. -/
theorem getColumn_not_mem (t : RawTable) (c : String) (h : c ∉ t.header) :
    getColumn t c = .error c := by
  unfold getColumn
  rw [if_neg h]

/-- C9: `read_data` reports an error exactly when the input is malformed —
a column the loader requires is absent, a totalEsg cell is non-numeric, or
a Date cell does not parse; on well-formed input the load succeeds, so
malformed input is the only load-time error condition. -/
theorem read_data_error_iff_malformed (esgT stocksT : RawTable) :
    (∃ e, read_data esgT stocksT = .error e) ↔ ¬ wellFormedInput esgT stocksT := by
  unfold read_data
  by_cases h1 : "totalEsg" ∈ esgT.header
  case neg =>
    rw [getColumn_not_mem _ _ h1]
    dsimp only
    simp only [Except.error.injEq, exists_eq', true_iff, wellFormedInput]
    tauto
  rw [getColumn_mem _ _ h1]
  dsimp only
  by_cases h2 : ∀ c ∈ esgT.rows.map (fun r =>
      r.getD (esgT.header.indexOf "totalEsg") (Cell.str "")), ∃ q, c = Cell.num q
  case neg =>
    obtain ⟨e, he⟩ : ∃ e, to_numeric (esgT.rows.map (fun r =>
        r.getD (esgT.header.indexOf "totalEsg") (Cell.str ""))) = .error e := by
      cases htc : to_numeric (esgT.rows.map (fun r =>
          r.getD (esgT.header.indexOf "totalEsg") (Cell.str ""))) with
      | ok qs => exact absurd ((to_numeric_ok_iff _).mp ⟨qs, htc⟩) h2
      | error e => exact ⟨e, rfl⟩
    rw [he]
    dsimp only
    simp only [Except.error.injEq, exists_eq', true_iff, wellFormedInput]
    tauto
  obtain ⟨qs, hqs⟩ := (to_numeric_ok_iff _).mpr h2
  rw [hqs]
  dsimp only
  by_cases h3 : "Symbol" ∈ esgT.header
  case neg =>
    rw [getColumn_not_mem _ _ h3]
    dsimp only
    simp only [Except.error.injEq, exists_eq', true_iff, wellFormedInput]
    tauto
  rw [getColumn_mem _ _ h3]
  dsimp only
  by_cases h4 : "Full Name" ∈ esgT.header
  case neg =>
    rw [getColumn_not_mem _ _ h4]
    dsimp only
    simp only [Except.error.injEq, exists_eq', true_iff, wellFormedInput]
    tauto
  rw [getColumn_mem _ _ h4]
  dsimp only
  by_cases h5 : "Date" ∈ stocksT.header
  case neg =>
    rw [getColumn_not_mem _ _ h5]
    dsimp only
    simp only [Except.error.injEq, exists_eq', true_iff, wellFormedInput]
    tauto
  rw [getColumn_mem _ _ h5]
  dsimp only
  by_cases h6 : ∀ c ∈ stocksT.rows.map (fun r =>
      r.getD (stocksT.header.indexOf "Date") (Cell.str "")), ∃ d, c = Cell.date d
  case neg =>
    obtain ⟨e, he⟩ : ∃ e, to_datetime (stocksT.rows.map (fun r =>
        r.getD (stocksT.header.indexOf "Date") (Cell.str ""))) = .error e := by
      cases htc : to_datetime (stocksT.rows.map (fun r =>
          r.getD (stocksT.header.indexOf "Date") (Cell.str ""))) with
      | ok ds => exact absurd ((to_datetime_ok_iff _).mp ⟨ds, htc⟩) h6
      | error e => exact ⟨e, rfl⟩
    rw [he]
    dsimp only
    simp only [Except.error.injEq, exists_eq', true_iff, wellFormedInput]
    tauto
  obtain ⟨ds, hds⟩ := (to_datetime_ok_iff _).mpr h6
  rw [hds]
  dsimp only
  exact iff_of_false (by rintro ⟨e, he⟩; simp at he)
    (fun hn => hn ⟨h1, h3, h4, h5, h2, h6⟩)

/-- Witness for C6 on a two-symbol price file of which only one symbol is
known to the ESG file: the unknown symbol is dropped by `read_data`. -/
theorem read_data_symbols_subset_witness :
    (read_data
        (RawTable.mk ["Symbol", "Full Name", "totalEsg"]
          [[Cell.str "ACM", Cell.str "Acme", Cell.num 25]])
        (RawTable.mk ["Date", "ACM", "ZZZ"]
          [[Cell.date 1, Cell.num 100, Cell.num 7]]) =
      .ok (LoadedData.mk [Cell.str "ACM"] [Cell.str "Acme"] [25]
        [LongRow.mk 1 "ACM" (Cell.num 100) (Cell.str "Acme")])) ∧
    (∀ r ∈ (LoadedData.mk [Cell.str "ACM"] [Cell.str "Acme"] [25]
        [LongRow.mk 1 "ACM" (Cell.num 100) (Cell.str "Acme")]).stocks,
      Cell.str r.symbol ∈ (LoadedData.mk [Cell.str "ACM"] [Cell.str "Acme"] [25]
        [LongRow.mk 1 "ACM" (Cell.num 100) (Cell.str "Acme")]).esgSymbols ∧
      Cell.str r.symbol ∈ (RawTable.mk ["Symbol", "Full Name", "totalEsg"]
          [[Cell.str "ACM", Cell.str "Acme", Cell.num 25]]).rows.map
        (fun row => row.getD ((RawTable.mk ["Symbol", "Full Name", "totalEsg"]
          [[Cell.str "ACM", Cell.str "Acme", Cell.num 25]]).header.indexOf "Symbol")
          (Cell.str ""))) :=
  ⟨rfl,
    read_data_symbols_subset
      (RawTable.mk ["Symbol", "Full Name", "totalEsg"]
        [[Cell.str "ACM", Cell.str "Acme", Cell.num 25]])
      (RawTable.mk ["Date", "ACM", "ZZZ"]
        [[Cell.date 1, Cell.num 100, Cell.num 7]])
      (LoadedData.mk [Cell.str "ACM"] [Cell.str "Acme"] [25]
        [LongRow.mk 1 "ACM" (Cell.num 100) (Cell.str "Acme")])
      rfl⟩

end ESGStocks
